import Mathlib

/-!
A verification development for `src/rtutils/image_helper.py`: helpers that
convert between per-slice polygon contours in patient space and a dense 3D
boolean mask aligned to an image series.  The Python floats are modelled
exactly by `ℚ` (the source never relies on rounding error; `np.float32`
matrices are modelled at full precision), numpy arrays by nested lists,
fallible code by `Except PyError`, and the one unbounded loop by a fuelled
recursion returning `Option` (`none` = the loop did not finish).
-/

namespace RTUtils

/-- A 3D vector with exact rational entries, modelling the numpy
3-vectors of the source. -/
structure Vec3 where
  x : ℚ
  y : ℚ
  z : ℚ
deriving DecidableEq, Inhabited

/-- `np.dot` on 3-vectors. -/
def dot (a b : Vec3) : ℚ := a.x * b.x + a.y * b.y + a.z * b.z

/-- `np.cross` on 3-vectors. -/
def cross (a b : Vec3) : Vec3 :=
  ⟨a.y * b.z - a.z * b.y, a.z * b.x - a.x * b.z, a.x * b.y - a.y * b.x⟩

/-- Componentwise division of a vector by a scalar (`vector / spacing`). -/
def vdiv (v : Vec3) (c : ℚ) : Vec3 := ⟨v.x / c, v.y / c, v.z / c⟩

/-- Scaling of a vector by a scalar (`direction * spacing`). -/
def vsmul (c : ℚ) (v : Vec3) : Vec3 := ⟨c * v.x, c * v.y, c * v.z⟩

/-- The attributes of one DICOM slice (`pydicom.Dataset`) that
`image_helper.py` reads: `ImagePositionPatient`, the two halves of
`ImageOrientationPatient`, `PixelSpacing`, `Rows`, `Columns`,
`SOPInstanceUID` (identifiers modelled as naturals). -/
structure SliceData where
  imagePositionPatient : Vec3
  orientRow : Vec3
  orientCol : Vec3
  pixelSpacingRow : ℚ
  pixelSpacingCol : ℚ
  rows : ℕ
  columns : ℕ
  sopInstanceUID : ℕ
deriving DecidableEq, Inhabited

/-- The exceptions the modelled code can raise: the bare `Exception`s of
`image_helper.py` (invalid orientation, empty contour on a non-empty
mask) and the numpy/Python errors reachable on its paths. -/
inductive PyError where
  | invalidGeometry
  | emptyContour
  | indexError
  | nameError
  | valueError
deriving DecidableEq, Inhabited

deriving instance DecidableEq for Except

/-- `np.allclose(a, b, atol)` for scalars: numpy's default relative
tolerance `rtol = 1e-5` stays in force, so the test is
`|a - b| <= atol + 1e-5 * |b|`. -/
def npAllclose (a b atol : ℚ) : Bool :=
  decide (|a - b| ≤ atol + (1 / 100000) * |b|)

/-- `np.allclose(np.linalg.norm v, 1.0, atol)` expressed on the squared
norm `sq = v ∙ v` (the square root is not rational): with
`t = atol + 1e-5 * 1.0`, the test `|sqrt sq - 1| <= t` is equivalent to
`(1 - t)^2 <= sq <= (1 + t)^2` because `sqrt` is monotone and `t < 1`. -/
def npAllcloseSqrtOne (sq atol : ℚ) : Bool :=
  decide ((1 - (atol + 1 / 100000)) ^ 2 ≤ sq ∧ sq ≤ (1 + (atol + 1 / 100000)) ^ 2)

/-- `get_slice_directions` (source lines 201-212): row/column orientation
and their cross product, after the orthonormality check; raises the
`Invalid Image Orientation (Patient) attribute` exception otherwise. -/
def get_slice_directions (series_slice : SliceData) :
    Except PyError (Vec3 × Vec3 × Vec3) :=
  let row_direction := series_slice.orientRow
  let column_direction := series_slice.orientCol
  let slice_direction := cross row_direction column_direction
  if npAllclose (dot row_direction column_direction) 0 (1 / 1000) &&
      npAllcloseSqrtOne (dot slice_direction slice_direction) (1 / 1000) then
    .ok (row_direction, column_direction, slice_direction)
  else
    .error .invalidGeometry

/-- `get_slice_position` (source lines 196-198): projection of the slice
position onto the slice normal. -/
def get_slice_position (series_slice : SliceData) : Except PyError ℚ :=
  match get_slice_directions series_slice with
  | .error e => .error e
  | .ok (_, _, slice_direction) =>
      .ok (dot slice_direction series_slice.imagePositionPatient)

/-- `get_spacing_between_slices` (source lines 215-222): for more than one
slice, the signed distance between the first and last slice positions
divided by `count - 1`; otherwise the sentinel `1.0`. -/
def get_spacing_between_slices (series : List SliceData) : Except PyError ℚ :=
  if 1 < series.length then
    match get_slice_position (series.headD default),
        get_slice_position (series.getLastD default) with
    | .ok first, .ok last => .ok ((last - first) / ((series.length : ℚ) - 1))
    | .error e, _ => .error e
    | _, .error e => .error e
  else
    .ok 1

/-- The 4×4 affine matrices of the source, which always keep the bottom
row at `(0, 0, 0, 1)` (they start from `np.identity(4)` and only rows
`[:3]` are assigned), so that row is left implicit: `col0`-`col2` are the
top three entries of the linear columns and `col3` of the translation
column.  `np.float32` entries are modelled exactly by `ℚ`. -/
structure Mat4 where
  col0 : Vec3
  col1 : Vec3
  col2 : Vec3
  col3 : Vec3
deriving DecidableEq, Inhabited

/-- Application of such a matrix to one 3D point: `vec.dot(matrix.T)` on
the homogeneous extension `(p, 1)`, keeping the first three entries
(`apply_transformation_to_3d_points`, source lines 184-193, acts on one
row of the stacked point array). -/
def applyMat (m : Mat4) (p : Vec3) : Vec3 :=
  ⟨m.col0.x * p.x + m.col1.x * p.y + m.col2.x * p.z + m.col3.x,
   m.col0.y * p.x + m.col1.y * p.y + m.col2.y * p.z + m.col3.y,
   m.col0.z * p.x + m.col1.z * p.y + m.col2.z * p.z + m.col3.z⟩

/-- `apply_transformation_to_3d_points` on a batch of points (each row of
`points` is transformed independently). -/
def apply_transformation_to_3d_points (points : List Vec3) (m : Mat4) : List Vec3 :=
  points.map (applyMat m)

/-- `get_pixel_to_patient_transformation_matrix` (source lines 137-155):
linear columns `row_direction * row_spacing`, `column_direction *
column_spacing`, `slice_direction * slice_spacing`; translation column
the first slice's position.  `series_data[0]` on an empty list is a
Python `IndexError`. -/
def get_pixel_to_patient_transformation_matrix :
    List SliceData → Except PyError Mat4
  | [] => .error .indexError
  | first :: rest =>
    match get_spacing_between_slices (first :: rest) with
    | .error e => .error e
    | .ok slice_spacing =>
      match get_slice_directions first with
      | .error e => .error e
      | .ok (row_direction, column_direction, slice_direction) =>
          .ok { col0 := vsmul first.pixelSpacingRow row_direction
                col1 := vsmul first.pixelSpacingCol column_direction
                col2 := vsmul slice_spacing slice_direction
                col3 := first.imagePositionPatient }

/-- `get_patient_to_pixel_transformation_matrix` (source lines 158-181):
the linear part has rows `row_direction / row_spacing`,
`column_direction / column_spacing`, `slice_direction / slice_spacing`
(so its columns are their componentwise transposes) and the translation
column is `offset.dot(-linear.T)`, i.e. `-(linear row_i ∙ offset)` per
entry. -/
def get_patient_to_pixel_transformation_matrix :
    List SliceData → Except PyError Mat4
  | [] => .error .indexError
  | first :: rest =>
    match get_spacing_between_slices (first :: rest) with
    | .error e => .error e
    | .ok slice_spacing =>
      match get_slice_directions first with
      | .error e => .error e
      | .ok (row_direction, column_direction, slice_direction) =>
          let offset := first.imagePositionPatient
          let linear0 := vdiv row_direction first.pixelSpacingRow
          let linear1 := vdiv column_direction first.pixelSpacingCol
          let linear2 := vdiv slice_direction slice_spacing
          .ok { col0 := ⟨linear0.x, linear1.x, linear2.x⟩
                col1 := ⟨linear0.y, linear1.y, linear2.y⟩
                col2 := ⟨linear0.z, linear1.z, linear2.z⟩
                col3 := ⟨-(dot linear0 offset), -(dot linear1 offset),
                         -(dot linear2 offset)⟩ }

/-- The determinant of the linear (upper-left 3×3) block of such a
matrix, as a scalar triple product; it equals the determinant of the
full 4×4 matrix because the bottom row is `(0, 0, 0, 1)`. -/
def linearDet (m : Mat4) : ℚ := dot m.col0 (cross m.col1 m.col2)

/-- The slice used to refute claim C4's exact 1e-3 norm threshold: exactly
orthogonal orientation directions whose cross product has norm
`1.001005`, between `1 + 1e-3` and numpy's actual bound `1 + 1.01e-3`. -/
def c4Slice : SliceData :=
  { imagePositionPatient := ⟨0, 0, 0⟩
    orientRow := ⟨1, 0, 0⟩
    orientCol := ⟨0, 1001005 / 1000000, 0⟩
    pixelSpacingRow := 1
    pixelSpacingCol := 1
    rows := 1
    columns := 1
    sopInstanceUID := 0 }

/-! ### Masks and the contour tracer -/

/-- A 2D boolean mask (one slice plane), row-major: `mask[i][j]` is entry
`(i, j)` of the numpy array. -/
abbrev Mask2 := List (List Bool)

/-- The 3D boolean mask, axes ordered as the source allocates them:
`mask[x][y][z]` with `x` up to `Columns`, `y` up to `Rows`, `z` the slice
index. -/
abbrev Mask3 := List (List (List Bool))

/-- A contour vertex of the tracer in half-unit (doubled) coordinates:
the vertex at `(r, c)` in pixel units is stored as `(2r, 2c) : ℤ × ℤ`.
Marching squares on a 0/1 image at the mid level only ever produces
vertices on cell-edge midpoints, so one coordinate is always an exact
half-integer; doubling keeps the model in `ℤ`, where concrete evaluation
is exact.  The real value of a stored coordinate `d` is `d / 2`. -/
abbrev DPoint := ℤ × ℤ

/-- `List.map` with the element's position (used for numpy-style indexed
writes). -/
def mapWithIdx (f : ℕ → α → β) : ℕ → List α → List β
  | _, [] => []
  | i, a :: as => f i a :: mapWithIdx f (i + 1) as

/-- Entry `(r, c)` of a 2D mask (out of range reads the default `False`;
the modelled call sites stay in range). -/
def cellValue (m : Mask2) (r c : ℕ) : Bool := (m.getD r []).getD c false

/-- Entry `(x, y, z)` of a 3D mask. -/
def cellValue3 (m : Mask3) (x y z : ℕ) : Bool :=
  ((m.getD x []).getD y []).getD z false

/-- `np.sum` of a boolean mask: the number of `True` cells. -/
def maskSum (m : Mask2) : ℕ :=
  m.foldr (fun row acc => row.countP (fun b => b) + acc) 0

/-- Modelled from the spec: one cell step of the Contour Tracer
(`skimage.measure.find_contours`, an external call, with
`fully_connected='low'`): standard marching squares on the four corners
`(r0, c0)`, `(r0, c0+1)`, `(r0+1, c0)`, `(r0+1, c0+1)` of a unit cell of
the 0/1 image at the mid boundary level, emitting oriented segments
whose endpoints are cell-edge midpoints (interpolation fraction is
exactly 1/2 on a 0/1 image), in doubled coordinates. -/
def cellSegments (m : Mask2) (r0 c0 : ℕ) : List (DPoint × DPoint) :=
  let ul := cellValue m r0 c0
  let ur := cellValue m r0 (c0 + 1)
  let ll := cellValue m (r0 + 1) c0
  let lr := cellValue m (r0 + 1) (c0 + 1)
  let sq : ℕ := (if ul then 1 else 0) + (if ur then 2 else 0) +
    (if ll then 4 else 0) + (if lr then 8 else 0)
  let top : DPoint := (2 * (r0 : ℤ), 2 * (c0 : ℤ) + 1)
  let bottom : DPoint := (2 * (r0 : ℤ) + 2, 2 * (c0 : ℤ) + 1)
  let left : DPoint := (2 * (r0 : ℤ) + 1, 2 * (c0 : ℤ))
  let right : DPoint := (2 * (r0 : ℤ) + 1, 2 * (c0 : ℤ) + 2)
  match sq with
  | 1 => [(top, left)]
  | 2 => [(right, top)]
  | 3 => [(right, left)]
  | 4 => [(left, bottom)]
  | 5 => [(top, bottom)]
  | 6 => [(right, top), (left, bottom)]
  | 7 => [(right, bottom)]
  | 8 => [(bottom, right)]
  | 9 => [(top, left), (bottom, right)]
  | 10 => [(bottom, top)]
  | 11 => [(bottom, left)]
  | 12 => [(left, right)]
  | 13 => [(top, right)]
  | 14 => [(left, top)]
  | _ => []

/-- Modelled from the spec: all marching-squares segments of a mask, in
row-major cell order. -/
def get_contour_segments (m : Mask2) : List (DPoint × DPoint) :=
  (List.range (m.length - 1)).foldr
    (fun r0 acc =>
      (List.range ((m.getD 0 []).length - 1)).foldr
        (fun c0 acc2 => cellSegments m r0 c0 ++ acc2) acc)
    []

/-- The open chain (or closed contour) with the given head point, among
the chains assembled so far. -/
def findChainStart (chains : List (ℕ × List DPoint)) (p : DPoint) :
    Option (ℕ × List DPoint) :=
  chains.find? (fun ic => decide (ic.2.headD (0, 0) = p))

/-- The chain with the given last point. -/
def findChainEnd (chains : List (ℕ × List DPoint)) (p : DPoint) :
    Option (ℕ × List DPoint) :=
  chains.find? (fun ic => decide (ic.2.getLastD (0, 0) = p))

/-- Replace the chain numbered `i`. -/
def updateChain (chains : List (ℕ × List DPoint)) (i : ℕ) (ps : List DPoint) :
    List (ℕ × List DPoint) :=
  chains.map (fun ic => if ic.1 = i then (i, ps) else ic)

/-- Drop the chain numbered `i`. -/
def removeChain (chains : List (ℕ × List DPoint)) (i : ℕ) :
    List (ℕ × List DPoint) :=
  chains.filter (fun ic => decide (ic.1 ≠ i))

/-- Modelled from the spec: one step of contour assembly.  An oriented
segment either closes the chain that both starts at its target and ends
at its source, merges two distinct chains (the merged chain keeps the
smaller creation number, as the tracer keeps contours ordered by first
appearance), extends a chain at either end, or opens a new chain. -/
def addSegment (st : List (ℕ × List DPoint) × ℕ) (seg : DPoint × DPoint) :
    List (ℕ × List DPoint) × ℕ :=
  let chains := st.1
  let nextIdx := st.2
  let f := seg.1
  let t := seg.2
  if f = t then st
  else
    match findChainStart chains t, findChainEnd chains f with
    | some (ti, tc), some (hi, hc) =>
      if ti = hi then (updateChain chains hi (hc ++ [t]), nextIdx)
      else if hi < ti then (updateChain (removeChain chains ti) hi (hc ++ tc), nextIdx)
      else (updateChain (removeChain chains hi) ti (hc ++ tc), nextIdx)
    | some (ti, tc), none => (updateChain chains ti (f :: tc), nextIdx)
    | none, some (hi, hc) => (updateChain chains hi (hc ++ [t]), nextIdx)
    | none, none => (chains ++ [(nextIdx, [f, t])], nextIdx + 1)

/-- Modelled from the spec: assembly of the segment soup into contours,
returned in order of first appearance. -/
def assemble_contours (segments : List (DPoint × DPoint)) : List (List DPoint) :=
  (segments.foldl addSegment ([], 0)).1.map (fun ic => ic.2)

/-- Modelled from the spec: the Contour Tracer
(`skimage.measure.find_contours(mask, level=None, fully_connected='low',
positive_orientation='low')`), an external call of `find_mask_contours`:
marching-squares contour extraction at the 0/1 boundary level.  It is a
total function: an all-`False` (or all-`True`) mask has no boundary
cells, no segments and hence an empty contour list, never an error. -/
def find_contours (m : Mask2) : List (List DPoint) :=
  assemble_contours (get_contour_segments m)

/-- `find_mask_contours` (source lines 89-90): delegates to the tracer;
the `approximate_contours` argument is accepted and ignored. -/
def find_mask_contours (m : Mask2) (approximate_contours : Bool) :
    List (List DPoint) :=
  find_contours m

/-- Boolean mask converted by `mask.astype(np.uint8)` (a fresh array:
numpy `astype` copies). -/
def toU8 (m : Mask2) : List (List ℕ) :=
  m.map (fun row => row.map (fun b => if b then 1 else 0))

/-- The `astype(bool)` conversion back. -/
def toBoolMask (m : List (List ℕ)) : Mask2 :=
  m.map (fun row => row.map (fun v => decide (v ≠ 0)))

/-- numpy integer indexing along one axis of size `len`: indices in
`[-len, len)` are accepted, negative ones wrap, anything else raises
`IndexError`. -/
def npIndex (len : ℕ) (i : ℤ) : Except PyError ℕ :=
  if 0 ≤ i ∧ i < (len : ℤ) then .ok i.toNat
  else if -(len : ℤ) ≤ i ∧ i < 0 then .ok (i + len).toNat
  else .error .indexError

/-- `mask[(r, c)]` on the uint8 mask, with numpy wrap semantics. -/
def readCellZ (m : List (List ℕ)) (p : ℤ × ℤ) : Except PyError ℕ :=
  match npIndex m.length p.1 with
  | .error e => .error e
  | .ok r =>
    let row := m.getD r []
    match npIndex row.length p.2 with
    | .error e => .error e
    | .ok c => .ok (row.getD c 0)

/-- Whether the wrap of row index `r` is the 0-based row `ri`. -/
def rowTouched (nrows : ℕ) (r : ℤ) (ri : ℕ) : Bool :=
  decide ((0 ≤ r ∧ r < (nrows : ℤ) ∧ r = (ri : ℤ)) ∨
    (-(nrows : ℤ) ≤ r ∧ r < 0 ∧ r + (nrows : ℤ) = (ri : ℤ)))

/-- Whether the 0-based column `ci` is hit by a column in `[lo, hi]`
under wrap. -/
def colTouched (ncols : ℕ) (lo hi : ℤ) (ci : ℕ) : Bool :=
  decide ((lo ≤ (ci : ℤ) ∧ (ci : ℤ) ≤ hi) ∨
    (lo ≤ (ci : ℤ) - (ncols : ℤ) ∧ (ci : ℤ) - (ncols : ℤ) ≤ hi))

/-- Modelled from the spec: `line_aa(start, end)` followed by
`mask[rr, cc] = fill_value` for the horizontal spans the pin-hole pass
draws (`start` and `end` always share their row): every pixel of the
1-pixel-wide connecting line between the two column positions, wrap
included, is set to the fill value.  `line_aa`'s anti-aliasing weights
are irrelevant because every returned pixel is assigned the same fill
value. -/
def drawSegment (m : List (List ℕ)) (startP endP : ℤ × ℤ) (fill : ℕ) :
    List (List ℕ) :=
  mapWithIdx (fun ri row =>
    if rowTouched m.length startP.1 ri then
      mapWithIdx (fun ci v =>
        if colTouched row.length (min startP.2 endP.2) (max startP.2 endP.2) ci
        then fill else v) 0 row
    else row) 0 m

/-- The while loop of `draw_line_upwards_from_point` (source lines
118-126), fuelled: check `mask[end] != fill_value`, draw the segment
from `start` to `end`, then step `start := end` and `end := end - (0,
2)` (`line_width = 2`).  `none` means the fuel ran out (the loop did not
finish within the given number of iterations). -/
def draw_loop (fill : ℕ) : ℕ → List (List ℕ) → ℤ × ℤ → ℤ × ℤ →
    Option (Except PyError (List (List ℕ)))
  | 0, _, _, _ => none
  | fuel + 1, mask, startP, endP =>
    match readCellZ mask endP with
    | .error e => some (.error e)
    | .ok v =>
      if v = fill then some (.ok mask)
      else draw_loop fill fuel (drawSegment mask startP endP fill) endP
        (endP.1, endP.2 - 2)

/-- The largest row length of a uint8 mask (a fuel bound for the
drawing loop). -/
def maxRowLen (m : List (List ℕ)) : ℕ :=
  m.foldr (fun row acc => max row.length acc) 0

/-- `draw_line_upwards_from_point` (source lines 112-127).  The start
point comes straight from a traced contour, so it arrives in half-unit
coordinates; numpy raises `IndexError` when `mask[end]` is indexed with
the non-integral coordinates (modelled: an odd doubled coordinate is not
an integral index; an even one is halved to the integer index the
Python floats hold).  The uint8 copy is drawn on and converted back to
bool, matching the source's `astype` calls (both allocate fresh arrays,
so the argument mask is never written). -/
def draw_line_upwards_from_point (mask : Mask2) (start : DPoint)
    (fill_value : ℕ) : Option (Except PyError Mask2) :=
  if start.1 % 2 = 0 ∧ start.2 % 2 = 0 then
    let s : ℤ × ℤ := (start.1 / 2, start.2 / 2)
    let m8 := toU8 mask
    match draw_loop fill_value (s.2.toNat + maxRowLen m8 + 4) m8 s
        (s.1, s.2 - 1) with
    | none => none
    | some (.error e) => some (.error e)
    | some (.ok m) => some (.ok (toBoolMask m))
  else some (.error .indexError)

/-- The `for child_contour in contours` loop of `create_pin_hole_mask`
(source lines 103-108): a carving line is drawn from the first point of
EVERY traced contour (the comment in the source speaks of child nodes of
a hierarchy, but no hierarchy is computed and no inner/outer test is
made). -/
def pinHoleLoop : List (List DPoint) → Mask2 → Option (Except PyError Mask2)
  | [], m => some (.ok m)
  | ctr :: rest, m =>
    match ctr with
    | [] => some (.error .indexError)
    | p0 :: _ =>
      match draw_line_upwards_from_point m p0 0 with
      | none => none
      | some (.error e) => some (.error e)
      | some (.ok m2) => pinHoleLoop rest m2

/-- `create_pin_hole_mask` (source lines 93-109): trace the contours,
copy the mask (`mask.copy()`, value semantics here), and draw a line
upwards from the first point of every contour with fill value 0. -/
def create_pin_hole_mask (mask : Mask2) (approximate_contours : Bool) :
    Option (Except PyError Mask2) :=
  pinHoleLoop (find_mask_contours mask approximate_contours) mask

/-- The 9×9 mask of claim C3: a filled 7×7 square with a 3×3 hole in its
center. -/
def holeMask : Mask2 :=
  [[false, false, false, false, false, false, false, false, false],
   [false, true, true, true, true, true, true, true, false],
   [false, true, true, true, true, true, true, true, false],
   [false, true, true, false, false, false, true, true, false],
   [false, true, true, false, false, false, true, true, false],
   [false, true, true, false, false, false, true, true, false],
   [false, true, true, true, true, true, true, true, false],
   [false, true, true, true, true, true, true, true, false],
   [false, false, false, false, false, false, false, false, false]]

/-! ### The rasterizer and the two orchestrators -/

/-- `np.around` on one value: round half to even (banker's rounding), the
rule numpy documents; the subsequent `astype(np.int32)` is exact on the
already-rounded value (the modelled inputs stay far below 2^31). -/
def npRound (q : ℚ) : ℤ :=
  let f : ℤ := Int.ediv q.num q.den
  if q - (f : ℚ) < 1 / 2 then f
  else if (1 : ℚ) / 2 < q - (f : ℚ) then f + 1
  else if f % 2 = 0 then f else f + 1

/-- `np.reshape(coords, [len // 3, 3])` on a flat coordinate list whose
length is a multiple of 3: consecutive triples become points. -/
def toVec3List : List ℚ → List Vec3
  | x :: y :: z :: rest => ⟨x, y, z⟩ :: toVec3List rest
  | _ => []

/-- One iteration of the polygon-building loop of
`get_slice_mask_from_slice_contour_data` (source lines 258-263): reshape
the flat contour data (a non-multiple-of-3 length is a numpy
`ValueError`), transform every point into pixel space, round, and keep
the leading `(row, col)` pair of each point. -/
def contourToPolygon (tm : Mat4) (coords : List ℚ) :
    Except PyError (List (ℤ × ℤ)) :=
  if coords.length % 3 = 0 then
    let reshaped_contour_data := toVec3List coords
    let translated_contour_data :=
      apply_transformation_to_3d_points reshaped_contour_data tm
    .ok (translated_contour_data.map (fun p => (npRound p.x, npRound p.y)))
  else .error .valueError

/-- All polygons of a slice's contour list, in order. -/
def polygonsOf (tm : Mat4) : List (List ℚ) →
    Except PyError (List (List (ℤ × ℤ)))
  | [] => .ok []
  | coords :: rest =>
    match contourToPolygon tm coords with
    | .error e => .error e
    | .ok p =>
      match polygonsOf tm rest with
      | .error e => .error e
      | .ok ps => .ok (p :: ps)

/-- Whether the rightward horizontal ray from `p` crosses the polygon
edge from `a` to `b` (exact integer form of the crossing test: the
intersection abscissa exceeds `p`'s iff `num / d > 0`). -/
def edgeCrosses (a b p : ℤ × ℤ) : Bool :=
  if (decide (a.2 ≤ p.2)) != (decide (b.2 ≤ p.2)) then
    let d := b.2 - a.2
    let num := (a.1 - p.1) * d + (b.1 - a.1) * (p.2 - a.2)
    decide ((0 < d ∧ 0 < num) ∨ (d < 0 ∧ num < 0))
  else false

/-- Modelled from the spec: the point-in-polygon rule of the Mask
Rasterizer's fill (`skimage.draw.polygon2mask`, an external call): a
pixel center is inside iff a ray from it crosses the closed polygon's
edges an odd number of times (even-odd rule). -/
def pointInPolygon (poly : List (ℤ × ℤ)) (p : ℤ × ℤ) : Bool :=
  decide (((poly.zip (poly.drop 1 ++ poly.take 1)).countP
    (fun e => edgeCrosses e.1 e.2 p)) % 2 = 1)

/-- Modelled from the spec: `polygon2mask(image_shape, polygon)` fills
one polygon into a zeroed boolean grid of the given shape. -/
def polygon2mask (image_shape : ℕ × ℕ) (polygon : List (ℤ × ℤ)) : Mask2 :=
  (List.range image_shape.1).map (fun i =>
    (List.range image_shape.2).map (fun j =>
      pointInPolygon polygon ((i : ℤ), (j : ℤ))))

/-- One item of a DICOM `ContourImageSequence`: the referenced slice
identifier. -/
structure ContourImage where
  referencedSOPInstanceUID : ℕ
deriving DecidableEq, Inhabited

/-- One item of a DICOM contour sequence: its image references and the
flat `ContourData` coordinate list. -/
structure ContourDataItem where
  contourImageSequence : List ContourImage
  contourData : List ℚ
deriving DecidableEq, Inhabited

abbrev ContourSequence := List ContourDataItem

/-- `get_slice_contour_data` (source lines 240-249): the `ContourData` of
every contour one of whose image references matches the slice's
`SOPInstanceUID`, in traversal order. -/
def get_slice_contour_data (series_slice : SliceData)
    (contour_sequence : ContourSequence) : List (List ℚ) :=
  contour_sequence.foldr
    (fun contour acc =>
      contour.contourImageSequence.foldr
        (fun contour_image acc2 =>
          if contour_image.referencedSOPInstanceUID = series_slice.sopInstanceUID
          then contour.contourData :: acc2 else acc2) [] ++ acc)
    []

/-- `create_empty_slice_mask` (source lines 281-284): a zeroed
`(Columns, Rows)` boolean array.  In
`get_slice_mask_from_slice_contour_data` its value is assigned to
`slice_mask` and immediately overwritten (dead store). -/
def create_empty_slice_mask (series_slice : SliceData) : Mask2 :=
  List.replicate series_slice.columns
    (List.replicate series_slice.rows false)

/-- `get_slice_mask_from_slice_contour_data` (source lines 252-267): the
loop builds the `polygons` list, but the final fill call passes only the
trailing value of the loop variable `polygon` (source line 266), so the
returned slice mask holds the last contour's polygon alone.  When the
contour list is empty the loop body never runs and `polygon` is unbound
(Python `NameError`); the call site guards against that. -/
def get_slice_mask_from_slice_contour_data (series_slice : SliceData)
    (slice_contour_data : List (List ℚ)) (transformation_matrix : Mat4)
    (image_shape : ℕ × ℕ) : Except PyError Mask2 :=
  match polygonsOf transformation_matrix slice_contour_data with
  | .error e => .error e
  | .ok polygons =>
    match polygons.getLast? with
    | none => .error .nameError
    | some polygon => .ok (polygon2mask image_shape polygon)

/-- `create_empty_series_mask` (source lines 270-278): a zeroed boolean
array shaped `(Columns, Rows, slice count)` from the first slice's
attributes (`series_data[0]` on an empty series is an `IndexError`). -/
def create_empty_series_mask : List SliceData → Except PyError Mask3
  | [] => .error .indexError
  | ref_dicom_image :: rest =>
    .ok (List.replicate ref_dicom_image.columns
      (List.replicate ref_dicom_image.rows
        (List.replicate (ref_dicom_image :: rest).length false)))

/-- `mask[:, :, i] = slice_mask`: write a 2D plane at slice index `i` of
the 3D mask (dimensions at the modelled call site match). -/
def setPlane (mask : Mask3) (plane : Mask2) (i : ℕ) : Mask3 :=
  mapWithIdx (fun x col =>
    mapWithIdx (fun y zs => zs.set i (cellValue plane x y)) 0 col) 0 mask

/-- The per-slice loop of `create_series_mask_from_contour_sequence`
(source lines 231-236): slices with matching contour data get their
plane rasterized and written; the others are left as allocated. -/
def series_mask_loop (seq : ContourSequence) (tm : Mat4)
    (image_shape : ℕ × ℕ) : ℕ → List SliceData → Mask3 → Except PyError Mask3
  | _, [], mask => .ok mask
  | i, series_slice :: rest, mask =>
    let slice_contour_data := get_slice_contour_data series_slice seq
    if slice_contour_data.length ≠ 0 then
      match get_slice_mask_from_slice_contour_data series_slice
          slice_contour_data tm image_shape with
      | .error e => .error e
      | .ok sm => series_mask_loop seq tm image_shape (i + 1) rest
          (setPlane mask sm i)
    else series_mask_loop seq tm image_shape (i + 1) rest mask

/-- `create_series_mask_from_contour_sequence` (source lines 225-237). -/
def create_series_mask_from_contour_sequence (series : List SliceData)
    (contour_sequence : ContourSequence) : Except PyError Mask3 :=
  match create_empty_series_mask series with
  | .error e => .error e
  | .ok mask =>
    match get_patient_to_pixel_transformation_matrix series with
    | .error e => .error e
    | .ok transformation_matrix =>
      series_mask_loop contour_sequence transformation_matrix
        (mask.length, (mask.getD 0 []).length) 0 series mask

/-- The fields of `rtutils.utils.ROIData` that `get_contours_coords`
reads (the dataclass also carries name/color/number fields the modelled
code never touches). -/
structure ROIData where
  mask : Mask3
  use_pin_hole : Bool
  approximate_contours : Bool
deriving DecidableEq, Inhabited

/-- `roi_data.mask[:, :, i]`: the 2D plane of slice `i`, shaped
`(Columns, Rows)`. -/
def planeAt (m : Mask3) (i : ℕ) : Mask2 :=
  m.map (fun col => col.map (fun zs => zs.getD i false))

/-- The z extent of a 3D mask (numpy knows it from the array's shape;
nested-list masks read it off the first cell). -/
def zdim (m : Mask3) : ℕ := ((m.getD 0 []).getD 0 []).length

/-- `np.ravel(...).tolist()` on a point array: the flat coordinate
list. -/
def ravel (points : List Vec3) : List ℚ :=
  points.foldr (fun p acc => p.x :: p.y :: p.z :: acc) []

/-- The reorder step on a slice's traced contours
(`[[x[1], x[0]] for x in contour]`, source lines 66-67): swap each point
to `(col, row)`, converting from the tracer's doubled half-unit
coordinates to their rational values here, where the source starts doing
arithmetic with them. -/
def swapContours (contours : List (List DPoint)) : List (List (ℚ × ℚ)) :=
  contours.map (fun ctr => ctr.map (fun p => (((p.2 : ℚ)) / 2, ((p.1 : ℚ)) / 2)))

/-- Formatting of the swapped contours of slice `i` for DICOM: append the
slice index as third coordinate, transform to patient space, flatten
(source lines 71-82). -/
def formatContours (tm : Mat4) (i : ℕ) (swapped : List (List (ℚ × ℚ))) :
    List (List ℚ) :=
  swapped.map (fun ctr =>
    ravel (apply_transformation_to_3d_points
      (ctr.map (fun p => ⟨p.1, p.2, (i : ℚ)⟩)) tm))

/-- Trace, reorder and validate one non-blank (already pin-holed) slice
plane, then format its contours (source lines 63-82): an empty contour
list on the non-empty plane raises the empty-contour exception of
`validate_contours`. -/
def traceAndFormat (roi : ROIData) (tm : Mat4) (i : ℕ) (ms : Mask2) :
    Except PyError (List (List ℚ)) :=
  if (swapContours (find_mask_contours ms roi.approximate_contours)).length = 0
  then .error .emptyContour
  else .ok (formatContours tm i
    (swapContours (find_mask_contours ms roi.approximate_contours)))

/-- The body of one non-blank loop iteration of `get_contours_coords`:
the optional pin-hole pass (which can itself fail, or not finish) and
then `traceAndFormat`. -/
def processSlice (roi : ROIData) (tm : Mat4) (i : ℕ) :
    Option (Except PyError (List (List ℚ))) :=
  match (if roi.use_pin_hole then
      create_pin_hole_mask (planeAt roi.mask i) roi.approximate_contours
    else some (.ok (planeAt roi.mask i))) with
  | none => none
  | some (.error e) => some (.error e)
  | some (.ok ms) => some (traceAndFormat roi tm i ms)

/-- The per-slice loop of `get_contours_coords` (source lines 51-84),
threading the caller's 3D mask as the explicit store the slice views
read from; no step of the loop writes to it (the pin-hole pass works on
copies), and the final store is returned alongside the result. -/
def get_contours_coords_loop (roi : ROIData) (tm : Mat4) :
    ℕ → List SliceData →
    Option (Except PyError (List (List (List ℚ))) × Mask3)
  | _, [] => some (.ok [], roi.mask)
  | i, _ :: rest =>
    if zdim roi.mask ≤ i then some (.error .indexError, roi.mask)
    else if maskSum (planeAt roi.mask i) = 0 then
      match get_contours_coords_loop roi tm (i + 1) rest with
      | some (.ok out, st) => some (.ok ([] :: out), st)
      | other => other
    else
      match processSlice roi tm i with
      | none => none
      | some (.error e) => some (.error e, roi.mask)
      | some (.ok formatted) =>
        match get_contours_coords_loop roi tm (i + 1) rest with
        | some (.ok out, st) => some (.ok (formatted :: out), st)
        | other => other

/-- `get_contours_coords` (source lines 47-86): build the forward matrix
once, then run the per-slice loop; `validate_contours` (source lines
130-134) raises the empty-contour exception inside the loop when a
non-blank slice traces to no contours. -/
def get_contours_coords (roi : ROIData) (series : List SliceData) :
    Option (Except PyError (List (List (List ℚ))) × Mask3) :=
  match get_pixel_to_patient_transformation_matrix series with
  | .error e => some (.error e, roi.mask)
  | .ok transformation_matrix =>
    get_contours_coords_loop roi transformation_matrix 0 series

/-- The slice of claim C1's failing input: identity geometry, 8×8,
`SOPInstanceUID` 42. -/
def c1Slice : SliceData :=
  { imagePositionPatient := ⟨0, 0, 0⟩
    orientRow := ⟨1, 0, 0⟩
    orientCol := ⟨0, 1, 0⟩
    pixelSpacingRow := 1
    pixelSpacingCol := 1
    rows := 8
    columns := 8
    sopInstanceUID := 42 }

/-- First contour of C1's failing input: the square with corners `(0,0)`
and `(2,2)` on slice 0, as flat DICOM contour data. -/
def c1ContourA : List ℚ := [0, 0, 0, 0, 2, 0, 2, 2, 0, 2, 0, 0]

/-- Second contour of C1's failing input: the square with corners `(4,4)`
and `(6,6)` on slice 0. -/
def c1ContourB : List ℚ := [4, 4, 0, 4, 6, 0, 6, 6, 0, 6, 4, 0]

/-- C1's contour sequence: both squares reference slice 42. -/
def c1Seq : ContourSequence :=
  [{ contourImageSequence := [⟨42⟩], contourData := c1ContourA },
   { contourImageSequence := [⟨42⟩], contourData := c1ContourB }]

/-! ### Algebraic helper lemmas -/

theorem dot_comm (a b : Vec3) : dot a b = dot b a := by
  cases a; cases b; simp [dot]; ring

theorem dot_cross_self_left (a b : Vec3) : dot a (cross a b) = 0 := by
  cases a; cases b; simp [dot, cross]; ring

theorem dot_cross_self_right (a b : Vec3) : dot b (cross a b) = 0 := by
  cases a; cases b; simp [dot, cross]; ring

theorem dot_cross_lagrange (a b : Vec3) :
    dot (cross a b) (cross a b) = dot a a * dot b b - dot a b ^ 2 := by
  cases a; cases b; simp [dot, cross]; ring

/-- The orthonormality check of `get_slice_directions` passes on exactly
orthonormal orientation vectors. -/
theorem get_slice_directions_orthonormal (s : SliceData)
    (hrr : dot s.orientRow s.orientRow = 1)
    (hcc : dot s.orientCol s.orientCol = 1)
    (hrc : dot s.orientRow s.orientCol = 0) :
    get_slice_directions s =
      .ok (s.orientRow, s.orientCol, cross s.orientRow s.orientCol) := by
  unfold get_slice_directions
  rw [if_pos]
  rw [Bool.and_eq_true]
  constructor
  · simp only [npAllclose, hrc, decide_eq_true_eq]
    norm_num
  · simp only [npAllcloseSqrtOne, dot_cross_lagrange, hrr, hcc, hrc,
      decide_eq_true_eq]
    norm_num

/-! ### C4: when `get_slice_directions` raises -/

/-- C4 counterexample: the claim says `get_slice_directions` raises
whenever the norm of the cross product deviates from 1 by more than
1e-3.  On `c4Slice` the squared norm of the cross product exceeds
`(1 + 1e-3)^2` (the norm is `1.001005`), yet the call succeeds, because
`np.allclose(norm, 1.0, atol=1e-3)` also adds numpy's default relative
tolerance `1e-5 * 1.0`. -/
theorem C4_counterexample_norm_tolerance :
    get_slice_directions c4Slice =
      .ok (⟨1, 0, 0⟩, ⟨0, 1001005 / 1000000, 0⟩, ⟨0, 0, 1001005 / 1000000⟩) ∧
    (1 + 1 / 1000) ^ 2 <
      dot (cross c4Slice.orientRow c4Slice.orientCol)
        (cross c4Slice.orientRow c4Slice.orientCol) := by
  constructor
  · unfold get_slice_directions
    rw [if_pos]
    · simp only [c4Slice, cross]
      norm_num
    · rw [Bool.and_eq_true]
      constructor
      · simp only [npAllclose, c4Slice, dot, decide_eq_true_eq]
        norm_num
      · simp only [npAllcloseSqrtOne, c4Slice, dot, cross, decide_eq_true_eq]
        norm_num
  · simp only [c4Slice, dot, cross]
    norm_num

/-- C4 (amended): `get_slice_directions` succeeds (returning the row
direction, the column direction and their cross product) exactly when
the dot product of the orientation directions deviates from 0 by at most
1e-3 and the norm of the cross product deviates from 1 by at most
1.01e-3 (numpy's absolute tolerance 1e-3 plus its default relative
tolerance 1e-5); otherwise it raises the invalid-geometry error.  The
norm condition is stated on the squared norm: `|‖n‖ - 1| ≤ t` iff
`(1 - t)^2 ≤ n ∙ n ≤ (1 + t)^2`. -/
theorem C4_slice_directions_raise_iff (s : SliceData) :
    (get_slice_directions s =
        .ok (s.orientRow, s.orientCol, cross s.orientRow s.orientCol) ↔
      (|dot s.orientRow s.orientCol| ≤ 1 / 1000 ∧
        (1 - 101 / 100000) ^ 2 ≤
          dot (cross s.orientRow s.orientCol) (cross s.orientRow s.orientCol) ∧
        dot (cross s.orientRow s.orientCol) (cross s.orientRow s.orientCol) ≤
          (1 + 101 / 100000) ^ 2)) ∧
    (¬ (|dot s.orientRow s.orientCol| ≤ 1 / 1000 ∧
        (1 - 101 / 100000) ^ 2 ≤
          dot (cross s.orientRow s.orientCol) (cross s.orientRow s.orientCol) ∧
        dot (cross s.orientRow s.orientCol) (cross s.orientRow s.orientCol) ≤
          (1 + 101 / 100000) ^ 2) →
      get_slice_directions s = .error .invalidGeometry) := by
  have hcond : (npAllclose (dot s.orientRow s.orientCol) 0 (1 / 1000) &&
      npAllcloseSqrtOne
        (dot (cross s.orientRow s.orientCol) (cross s.orientRow s.orientCol))
        (1 / 1000)) = true ↔
      (|dot s.orientRow s.orientCol| ≤ 1 / 1000 ∧
        (1 - 101 / 100000) ^ 2 ≤
          dot (cross s.orientRow s.orientCol) (cross s.orientRow s.orientCol) ∧
        dot (cross s.orientRow s.orientCol) (cross s.orientRow s.orientCol) ≤
          (1 + 101 / 100000) ^ 2) := by
    rw [Bool.and_eq_true]
    simp only [npAllclose, npAllcloseSqrtOne, decide_eq_true_eq]
    constructor
    · rintro ⟨h1, h2, h3⟩
      refine ⟨by simpa using h1, by norm_num at h2 ⊢; linarith,
        by norm_num at h3 ⊢; linarith⟩
    · rintro ⟨h1, h2, h3⟩
      refine ⟨by simpa using h1, ⟨by norm_num at h2 ⊢; linarith,
        by norm_num at h3 ⊢; linarith⟩⟩
  unfold get_slice_directions
  by_cases h : (npAllclose (dot s.orientRow s.orientCol) 0 (1 / 1000) &&
      npAllcloseSqrtOne
        (dot (cross s.orientRow s.orientCol) (cross s.orientRow s.orientCol))
        (1 / 1000)) = true
  · rw [if_pos h]
    exact ⟨⟨fun _ => hcond.mp h, fun _ => rfl⟩, fun hc => absurd (hcond.mp h) hc⟩
  · rw [if_neg h]
    refine ⟨⟨fun heq => absurd heq (by simp), fun hc => absurd (hcond.mpr hc) h⟩,
      fun _ => rfl⟩

/-! ### C5: spacing between slices -/

/-- C5: for a series with at least two slices,
`get_spacing_between_slices` returns the signed difference of the
slice-normal projections of the last and first slice positions divided
by `count - 1`; for a single slice it returns the sentinel `1.0`, and
the resulting pixel-to-patient matrix is non-singular (its determinant,
equal to the determinant of its linear block, is nonzero) for any
orthonormal orientation and positive pixel spacings. -/
theorem C5_spacing_between_slices :
    (∀ (series : List SliceData) (pf pl : ℚ), 2 ≤ series.length →
        get_slice_position (series.headD default) = .ok pf →
        get_slice_position (series.getLastD default) = .ok pl →
        get_spacing_between_slices series =
          .ok ((pl - pf) / ((series.length : ℚ) - 1))) ∧
    (∀ s : SliceData, get_spacing_between_slices [s] = .ok 1) ∧
    (∀ (s : SliceData) (M : Mat4),
        dot s.orientRow s.orientRow = 1 → dot s.orientCol s.orientCol = 1 →
        dot s.orientRow s.orientCol = 0 →
        0 < s.pixelSpacingRow → 0 < s.pixelSpacingCol →
        get_pixel_to_patient_transformation_matrix [s] = .ok M →
        linearDet M ≠ 0) := by
  refine ⟨?_, ?_, ?_⟩
  · intro series pf pl hlen hpf hpl
    unfold get_spacing_between_slices
    rw [if_pos (by omega)]
    rw [hpf, hpl]
  · intro s
    unfold get_spacing_between_slices
    rw [if_neg (by simp)]
  · intro s M hrr hcc hrc hsr hsc hM
    have hspace : get_spacing_between_slices [s] = .ok 1 := by
      unfold get_spacing_between_slices
      rw [if_neg (by simp)]
    have hdir := get_slice_directions_orthonormal s hrr hcc hrc
    simp only [get_pixel_to_patient_transformation_matrix, hspace, hdir,
      Except.ok.injEq] at hM
    subst hM
    have hdet : linearDet
        { col0 := vsmul s.pixelSpacingRow s.orientRow
          col1 := vsmul s.pixelSpacingCol s.orientCol
          col2 := vsmul 1 (cross s.orientRow s.orientCol)
          col3 := s.imagePositionPatient } =
        s.pixelSpacingRow * s.pixelSpacingCol := by
      obtain ⟨o, r, c, psr, psc, nr, nc, uid⟩ := s
      obtain ⟨rx, ry, rz⟩ := r
      obtain ⟨cx, cy, cz⟩ := c
      simp only [dot, cross, vsmul, linearDet] at hrr hcc hrc ⊢
      linear_combination (psr * psc * (cx ^ 2 + cy ^ 2 + cz ^ 2)) * hrr +
        (psr * psc) * hcc -
        (psr * psc * (rx * cx + ry * cy + rz * cz)) * hrc
    rw [hdet]
    exact mul_ne_zero hsr.ne' hsc.ne'

/-! ### C2: transform invertibility -/

/-- Exact algebra behind C2: applying the patient-to-pixel matrix after
the pixel-to-patient matrix (both as the source builds them from the
same orientation pair, spacings and offset) is the identity on points,
for exactly orthonormal orientation directions and nonzero spacings. -/
theorem roundtrip_exact (r c off p : Vec3) (sr sc ss : ℚ)
    (hrr : dot r r = 1) (hcc : dot c c = 1) (hrc : dot r c = 0)
    (hsr : sr ≠ 0) (hsc : sc ≠ 0) (hss : ss ≠ 0) :
    applyMat
      { col0 := ⟨(vdiv r sr).x, (vdiv c sc).x, (vdiv (cross r c) ss).x⟩
        col1 := ⟨(vdiv r sr).y, (vdiv c sc).y, (vdiv (cross r c) ss).y⟩
        col2 := ⟨(vdiv r sr).z, (vdiv c sc).z, (vdiv (cross r c) ss).z⟩
        col3 := ⟨-(dot (vdiv r sr) off), -(dot (vdiv c sc) off),
                 -(dot (vdiv (cross r c) ss) off)⟩ }
      (applyMat
        { col0 := vsmul sr r
          col1 := vsmul sc c
          col2 := vsmul ss (cross r c)
          col3 := off } p) = p := by
  obtain ⟨rx, ry, rz⟩ := r
  obtain ⟨cx, cy, cz⟩ := c
  obtain ⟨ox, oy, oz⟩ := off
  obtain ⟨px, py, pz⟩ := p
  simp only [dot, cross, vdiv, vsmul, applyMat, Vec3.mk.injEq] at hrr hcc hrc ⊢
  refine ⟨?_, ?_, ?_⟩
  · field_simp
    linear_combination (sr * px) * hrr + (sc * py) * hrc
  · field_simp
    linear_combination (sr * px) * hrc + (sc * py) * hcc
  · field_simp
    linear_combination (ss * pz * (cx ^ 2 + cy ^ 2 + cz ^ 2)) * hrr +
      (ss * pz) * hcc - (ss * pz * (rx * cx + ry * cy + rz * cz)) * hrc

/-- C2: for a valid series (exactly orthonormal orientation, positive
pixel spacings, nonzero slice spacing), mapping any 3D point through the
pixel-to-patient matrix and then the patient-to-pixel matrix returns the
point within 1e-4 in each coordinate (in the exact-arithmetic model the
round trip is exact, so the tolerance holds). -/
theorem C2_transform_roundtrip (first : SliceData) (rest : List SliceData)
    (M Minv : Mat4) (ss : ℚ) (p : Vec3)
    (hrr : dot first.orientRow first.orientRow = 1)
    (hcc : dot first.orientCol first.orientCol = 1)
    (hrc : dot first.orientRow first.orientCol = 0)
    (hsr : 0 < first.pixelSpacingRow)
    (hsc : 0 < first.pixelSpacingCol)
    (hss : get_spacing_between_slices (first :: rest) = .ok ss)
    (hssne : ss ≠ 0)
    (hM : get_pixel_to_patient_transformation_matrix (first :: rest) = .ok M)
    (hMinv : get_patient_to_pixel_transformation_matrix (first :: rest) = .ok Minv) :
    |(applyMat Minv (applyMat M p)).x - p.x| ≤ 1 / 10000 ∧
    |(applyMat Minv (applyMat M p)).y - p.y| ≤ 1 / 10000 ∧
    |(applyMat Minv (applyMat M p)).z - p.z| ≤ 1 / 10000 := by
  have hdir := get_slice_directions_orthonormal first hrr hcc hrc
  simp only [get_pixel_to_patient_transformation_matrix, hss, hdir,
    Except.ok.injEq] at hM
  simp only [get_patient_to_pixel_transformation_matrix, hss, hdir,
    Except.ok.injEq] at hMinv
  subst hM
  subst hMinv
  rw [roundtrip_exact first.orientRow first.orientCol first.imagePositionPatient
    p first.pixelSpacingRow first.pixelSpacingCol ss hrr hcc hrc hsr.ne' hsc.ne'
    hssne]
  norm_num

/-- C2 witness: a concrete single-slice series with identity geometry and
the point `(3, 5, 7)`. -/
theorem C2_transform_roundtrip_witness :
    |(applyMat (Mat4.mk ⟨1, 0, 0⟩ ⟨0, 1, 0⟩ ⟨0, 0, 1⟩ ⟨0, 0, 0⟩)
        (applyMat (Mat4.mk ⟨1, 0, 0⟩ ⟨0, 1, 0⟩ ⟨0, 0, 1⟩ ⟨0, 0, 0⟩)
          ⟨3, 5, 7⟩)).x - (Vec3.mk 3 5 7).x| ≤ 1 / 10000 ∧
    |(applyMat (Mat4.mk ⟨1, 0, 0⟩ ⟨0, 1, 0⟩ ⟨0, 0, 1⟩ ⟨0, 0, 0⟩)
        (applyMat (Mat4.mk ⟨1, 0, 0⟩ ⟨0, 1, 0⟩ ⟨0, 0, 1⟩ ⟨0, 0, 0⟩)
          ⟨3, 5, 7⟩)).y - (Vec3.mk 3 5 7).y| ≤ 1 / 10000 ∧
    |(applyMat (Mat4.mk ⟨1, 0, 0⟩ ⟨0, 1, 0⟩ ⟨0, 0, 1⟩ ⟨0, 0, 0⟩)
        (applyMat (Mat4.mk ⟨1, 0, 0⟩ ⟨0, 1, 0⟩ ⟨0, 0, 1⟩ ⟨0, 0, 0⟩)
          ⟨3, 5, 7⟩)).z - (Vec3.mk 3 5 7).z| ≤ 1 / 10000 :=
  C2_transform_roundtrip
    { imagePositionPatient := ⟨0, 0, 0⟩, orientRow := ⟨1, 0, 0⟩,
      orientCol := ⟨0, 1, 0⟩, pixelSpacingRow := 1, pixelSpacingCol := 1,
      rows := 4, columns := 4, sopInstanceUID := 1 }
    [] _ _ 1 ⟨3, 5, 7⟩
    (by norm_num [dot]) (by norm_num [dot]) (by norm_num [dot])
    (by norm_num) (by norm_num)
    (by norm_num [get_spacing_between_slices]) (by norm_num)
    (by norm_num [get_pixel_to_patient_transformation_matrix,
      get_spacing_between_slices, get_slice_directions, npAllclose,
      npAllcloseSqrtOne, dot, cross, vsmul])
    (by norm_num [get_patient_to_pixel_transformation_matrix,
      get_spacing_between_slices, get_slice_directions, npAllclose,
      npAllcloseSqrtOne, dot, cross, vdiv])

/-! ### C1: multi-contour rasterization -/

theorem npRound_intCast (n : ℤ) : npRound (n : ℚ) = n := by
  have hnum : ((n : ℚ)).num = n := Rat.num_intCast n
  have hden : ((n : ℚ)).den = 1 := Rat.den_intCast n
  simp only [npRound, hnum, hden, Nat.cast_one]
  have he : n.ediv 1 = n := Int.ediv_one n
  rw [he]
  norm_num

theorem applyMat_one (p : Vec3) :
    applyMat (Mat4.mk ⟨1, 0, 0⟩ ⟨0, 1, 0⟩ ⟨0, 0, 1⟩ ⟨0, 0, 0⟩) p = p := by
  cases p
  simp [applyMat]

theorem c1_dirs : get_slice_directions c1Slice =
    .ok (⟨1, 0, 0⟩, ⟨0, 1, 0⟩, ⟨0, 0, 1⟩) := by
  have h := get_slice_directions_orthonormal c1Slice (by norm_num [dot, c1Slice])
    (by norm_num [dot, c1Slice]) (by norm_num [dot, c1Slice])
  rw [h]
  norm_num [c1Slice, cross]

theorem c1_tm : get_patient_to_pixel_transformation_matrix [c1Slice] =
    .ok (Mat4.mk ⟨1, 0, 0⟩ ⟨0, 1, 0⟩ ⟨0, 0, 1⟩ ⟨0, 0, 0⟩) := by
  have hsp : get_spacing_between_slices [c1Slice] = .ok 1 := by
    unfold get_spacing_between_slices
    rw [if_neg (by simp)]
  simp only [get_patient_to_pixel_transformation_matrix, hsp, c1_dirs]
  norm_num [vdiv, dot, c1Slice, Mat4.mk.injEq, Vec3.mk.injEq]

/-- C1: on a single-slice identity-geometry series with two square
contours referencing the slice (corners `(0,0)`-`(2,2)` and
`(4,4)`-`(6,6)`), the produced mask misses the first square: pixel
`(1,1)` lies inside the first polygon (so the claimed union contains
it), yet the mask is `False` there, while `(5,5)` from the last contour
is `True`.  The loop of `get_slice_mask_from_slice_contour_data` builds
the `polygons` list but the fill call receives only the trailing loop
variable `polygon`, so only the last contour is rasterized. -/
theorem C1_only_last_contour_filled :
    ∃ m : Mask3,
      create_series_mask_from_contour_sequence [c1Slice] c1Seq = .ok m ∧
      pointInPolygon [(0, 0), (0, 2), (2, 2), (2, 0)] (1, 1) = true ∧
      cellValue3 m 1 1 0 = false ∧
      cellValue3 m 5 5 0 = true := by
  have h0 : npRound 0 = 0 := by
    have := npRound_intCast 0; norm_num at this ⊢; exact this
  have h2 : npRound 2 = 2 := by
    have := npRound_intCast 2; norm_num at this ⊢; exact this
  have h4 : npRound 4 = 4 := by
    have := npRound_intCast 4; norm_num at this ⊢; exact this
  have h6 : npRound 6 = 6 := by
    have := npRound_intCast 6; norm_num at this ⊢; exact this
  have hA : contourToPolygon (Mat4.mk ⟨1, 0, 0⟩ ⟨0, 1, 0⟩ ⟨0, 0, 1⟩ ⟨0, 0, 0⟩)
      c1ContourA = .ok [(0, 0), (0, 2), (2, 2), (2, 0)] := by
    simp [contourToPolygon, c1ContourA, toVec3List,
      apply_transformation_to_3d_points, applyMat_one, h0, h2]
  have hB : contourToPolygon (Mat4.mk ⟨1, 0, 0⟩ ⟨0, 1, 0⟩ ⟨0, 0, 1⟩ ⟨0, 0, 0⟩)
      c1ContourB = .ok [(4, 4), (4, 6), (6, 6), (6, 4)] := by
    simp [contourToPolygon, c1ContourB, toVec3List,
      apply_transformation_to_3d_points, applyMat_one, h4, h6]
  have hscd : get_slice_contour_data c1Slice c1Seq = [c1ContourA, c1ContourB] := by
    simp [get_slice_contour_data, c1Seq, c1Slice]
  have hempty : create_empty_series_mask [c1Slice] =
      .ok (List.replicate 8 (List.replicate 8 (List.replicate 1 false))) := by
    simp [create_empty_series_mask, c1Slice]
  have heval : create_series_mask_from_contour_sequence [c1Slice] c1Seq =
      .ok (setPlane (List.replicate 8 (List.replicate 8 (List.replicate 1 false)))
        (polygon2mask (8, 8) [(4, 4), (4, 6), (6, 6), (6, 4)]) 0) := by
    simp only [create_series_mask_from_contour_sequence, hempty, c1_tm]
    simp only [series_mask_loop, hscd]
    rw [if_pos (by simp)]
    simp only [get_slice_mask_from_slice_contour_data, polygonsOf, hA, hB]
    simp [List.length_replicate]
  exact ⟨_, heval, by decide, by decide, by decide⟩

/-! ### C3: the pin-hole pass -/

/-- C3: on the filled-square-with-hole mask the tracer finds the two
nested contours, but the pin-hole pass does not return a single merged
contour: it crashes.  `create_pin_hole_mask` draws a carving line from
the first point of every traced contour (no inner/child test exists in
the code), and that first point is a marching-squares vertex with a
half-integer coordinate (odd doubled coordinate), which numpy rejects as
an array index, so the pass raises `IndexError` on the very first
contour. -/
theorem C3_pin_hole_pass_crashes :
    (find_mask_contours holeMask false).length = 2 ∧
    create_pin_hole_mask holeMask false = some (.error .indexError) := by
  constructor
  · decide
  · decide

/-! ### C7: termination of the carving-line loop -/

theorem mapWithIdx_length (f : ℕ → α → β) (i : ℕ) (l : List α) :
    (mapWithIdx f i l).length = l.length := by
  induction l generalizing i with
  | nil => rfl
  | cons a as ih => simp [mapWithIdx, ih]

theorem mapWithIdx_getD (F : ℕ → List ℕ → List ℕ) (m : List (List ℕ)) (r : ℕ) :
    ∀ i, (mapWithIdx F i m).getD r [] =
      if r < m.length then F (i + r) (m.getD r []) else [] := by
  induction m generalizing r with
  | nil => intro i; simp [mapWithIdx]
  | cons a as ih =>
    intro i
    cases r with
    | zero => simp [mapWithIdx]
    | succ k =>
      simp only [mapWithIdx, List.getD_cons_succ, List.length_cons, ih k (i + 1)]
      have : i + 1 + k = i + (k + 1) := by omega
      rw [this]
      by_cases hk : k < as.length
      · rw [if_pos hk, if_pos (by omega)]
      · rw [if_neg hk, if_neg (by omega)]

theorem drawSegment_length (m : List (List ℕ)) (s e : ℤ × ℤ) (fi : ℕ) :
    (drawSegment m s e fi).length = m.length := by
  simp [drawSegment, mapWithIdx_length]

theorem drawSegment_row_length (m : List (List ℕ)) (s e : ℤ × ℤ) (fi : ℕ)
    (r : ℕ) : ((drawSegment m s e fi).getD r []).length = (m.getD r []).length := by
  rw [drawSegment, mapWithIdx_getD]
  simp only [Nat.zero_add]
  by_cases hr : r < m.length
  · rw [if_pos hr]
    by_cases ht : rowTouched m.length s.1 r
    · rw [if_pos ht, mapWithIdx_length]
    · rw [if_neg ht]
  · rw [if_neg hr]
    have : m.getD r [] = [] := List.getD_eq_default _ _ (by omega)
    rw [this]

theorem npIndex_ok_lower (len : ℕ) (i : ℤ) (x : ℕ)
    (h : npIndex len i = .ok x) : -(len : ℤ) ≤ i := by
  unfold npIndex at h
  split at h
  · omega
  · split at h
    · omega
    · exact absurd h (by simp)

theorem readCellZ_ok_bound (m : List (List ℕ)) (p : ℤ × ℤ) (v : ℕ)
    (h : readCellZ m p = .ok v) :
    ∃ rn, npIndex m.length p.1 = .ok rn ∧ -(((m.getD rn []).length : ℤ)) ≤ p.2 := by
  unfold readCellZ at h
  rcases hrow : npIndex m.length p.1 with e | rn
  · rw [hrow] at h
    simp at h
  · rw [hrow] at h
    simp only [] at h
    refine ⟨rn, rfl, ?_⟩
    rcases hcol : npIndex (m.getD rn []).length p.2 with e | cn
    · rw [hcol] at h
      simp at h
    · exact npIndex_ok_lower _ _ _ hcol

/-- The scanned column index falls by 2 per iteration and numpy indexing
fails below minus the row length, so this fuel always suffices for the
while loop. -/
theorem draw_loop_fuel (fill : ℕ) : ∀ (n : ℕ) (mask : List (List ℕ))
    (startP endP : ℤ × ℤ),
    (∀ rn, npIndex mask.length endP.1 = .ok rn →
      endP.2 + ((mask.getD rn []).length : ℤ) + 2 ≤ 2 * n) →
    draw_loop fill (n + 1) mask startP endP ≠ none := by
  intro n
  induction n with
  | zero =>
    intro mask startP endP hbound
    rw [draw_loop]
    rcases hcell : readCellZ mask endP with e | v
    · simp
    · exfalso
      obtain ⟨rn, hrow, hlow⟩ := readCellZ_ok_bound mask endP v hcell
      have := hbound rn hrow
      omega
  | succ m ih =>
    intro mask startP endP hbound
    rw [draw_loop]
    rcases hcell : readCellZ mask endP with e | v
    · simp
    · simp only
      by_cases hv : v = fill
      · rw [if_pos hv]; simp
      · rw [if_neg hv]
        apply ih
        intro rn hrow
        rw [drawSegment_length] at hrow
        rw [drawSegment_row_length]
        have := hbound rn hrow
        omega

theorem maxRowLen_bound (m : List (List ℕ)) (r : ℕ) :
    (m.getD r []).length ≤ maxRowLen m := by
  induction m generalizing r with
  | nil => simp
  | cons a as ih =>
    cases r with
    | zero => simp [maxRowLen]
    | succ k =>
      simp only [List.getD_cons_succ, maxRowLen, List.foldr_cons]
      have := ih k
      simp only [maxRowLen] at this
      omega

/-- C7: the while loop of the pin-hole line draw terminates whenever the
mask is finite and some pixel of the start row at a smaller column index
already holds the background value (the start point is an integral pixel
`(r, c)`, passed in the model's doubled coordinates).  The proof shows
more: the provided fuel always suffices, because the scanned column
index decreases by the line width at every step and numpy indexing
raises `IndexError` once it passes below minus the row length, so the
scan is never unbounded. -/
theorem C7_draw_line_terminates (mask : Mask2) (r c : ℤ) (j : ℕ)
    (hreach : (j : ℤ) < c ∧ readCellZ (toU8 mask) (r, (j : ℤ)) = .ok 0) :
    draw_line_upwards_from_point mask (2 * r, 2 * c) 0 ≠ none := by
  clear hreach
  unfold draw_line_upwards_from_point
  rw [if_pos (by constructor <;> omega)]
  have hdiv1 : (2 * r) / 2 = r := by omega
  have hdiv2 : (2 * c) / 2 = c := by omega
  simp only [hdiv1, hdiv2]
  have hfuel : c.toNat + maxRowLen (toU8 mask) + 4 =
      (c.toNat + maxRowLen (toU8 mask) + 3) + 1 := by omega
  rw [hfuel]
  have hterm := draw_loop_fuel 0 (c.toNat + maxRowLen (toU8 mask) + 3)
    (toU8 mask) (r, c) (r, c - 1) ?_
  · rcases hres : draw_loop 0 (c.toNat + maxRowLen (toU8 mask) + 3 + 1)
        (toU8 mask) (r, c) (r, c - 1) with _ | res
    · exact absurd hres hterm
    · rcases res with e | m2 <;> simp
  · intro rn hrow
    have h1 : ((toU8 mask).getD rn []).length ≤ maxRowLen (toU8 mask) :=
      maxRowLen_bound _ _
    have h2 : c ≤ (c.toNat : ℤ) := Int.self_le_toNat c
    omega

/-- C7 witness: a one-row mask `[1, 0, 1]` with the line drawn from pixel
`(0, 2)`; the background pixel at column 1 satisfies the reachability
hypothesis, and the loop finishes. -/
theorem C7_draw_line_terminates_witness :
    (((1 : ℕ) : ℤ) < 2 ∧
      readCellZ (toU8 [[true, false, true]]) (0, ((1 : ℕ) : ℤ)) = .ok 0) ∧
    draw_line_upwards_from_point [[true, false, true]] (2 * 0, 2 * 2) 0 ≠ none :=
  ⟨⟨by norm_num, by decide⟩,
    C7_draw_line_terminates [[true, false, true]] 0 2 1 ⟨by norm_num, by decide⟩⟩

/-! ### C8: series mask allocation -/

theorem mapWithIdx_getD_lt {α β : Type} (F : ℕ → α → β) (l : List α) (dA : α)
    (dB : β) (r : ℕ) (hr : r < l.length) :
    ∀ i, (mapWithIdx F i l).getD r dB = F (i + r) (l.getD r dA) := by
  induction l generalizing r with
  | nil => simp at hr
  | cons a as ih =>
    intro i
    cases r with
    | zero => simp [mapWithIdx]
    | succ k =>
      have hk : k < as.length := by simpa using hr
      simp only [mapWithIdx, List.getD_cons_succ, ih k hk (i + 1)]
      have : i + 1 + k = i + (k + 1) := by omega
      rw [this]

theorem getD_set_ne {α : Type} (d : α) : ∀ (l : List α) (i z : ℕ) (b : α),
    i ≠ z → (l.set i b).getD z d = l.getD z d := by
  intro l
  induction l with
  | nil => intro i z b _; simp
  | cons a as ih =>
    intro i z b hne
    cases i with
    | zero =>
      cases z with
      | zero => exact absurd rfl hne
      | succ zk => simp [List.set]
    | succ ik =>
      cases z with
      | zero => simp [List.set]
      | succ zk => simpa [List.set] using ih ik zk b (by omega)

theorem getD_replicate {α : Type} (d a : α) : ∀ (m n : ℕ),
    (List.replicate m a).getD n d = if n < m then a else d := by
  intro m
  induction m with
  | zero => intro n; simp
  | succ k ih =>
    intro n
    cases n with
    | zero => simp [List.replicate]
    | succ j =>
      simp only [List.replicate, List.getD_cons_succ, ih j,
        Nat.succ_lt_succ_iff]

theorem cellValue3_setPlane_ne (m : Mask3) (p : Mask2) (i x y z : ℕ)
    (hne : i ≠ z) : cellValue3 (setPlane m p i) x y z = cellValue3 m x y z := by
  by_cases hx : x < m.length
  · have houter : (setPlane m p i).getD x [] =
        mapWithIdx (fun y zs => zs.set i (cellValue p x y)) 0 (m.getD x []) := by
      simp only [setPlane]
      rw [mapWithIdx_getD_lt _ _ [] _ _ hx 0, Nat.zero_add]
    by_cases hy : y < (m.getD x []).length
    · have hinner : ((setPlane m p i).getD x []).getD y [] =
          ((m.getD x []).getD y []).set i (cellValue p x y) := by
        rw [houter, mapWithIdx_getD_lt _ _ [] _ _ hy 0, Nat.zero_add]
      unfold cellValue3
      rw [hinner]
      exact getD_set_ne false _ i z _ hne
    · have hinner : ((setPlane m p i).getD x []).getD y [] = [] := by
        rw [houter]
        apply List.getD_eq_default
        rw [mapWithIdx_length]
        omega
      have hR : (m.getD x []).getD y [] = [] := by
        apply List.getD_eq_default
        omega
      unfold cellValue3
      rw [hinner, hR]
  · have hL : (setPlane m p i).getD x [] = [] := by
      simp only [setPlane]
      apply List.getD_eq_default
      rw [mapWithIdx_length]
      omega
    have hR : m.getD x [] = [] := by
      apply List.getD_eq_default
      omega
    unfold cellValue3
    rw [hL, hR]

def maskShapeP (m : Mask3) (a b c : ℕ) : Prop :=
  m.length = a ∧ ∀ x, x < a → (m.getD x []).length = b ∧
    ∀ y, y < b → ((m.getD x []).getD y []).length = c

theorem setPlane_shape (m : Mask3) (p : Mask2) (i a b c : ℕ)
    (h : maskShapeP m a b c) : maskShapeP (setPlane m p i) a b c := by
  obtain ⟨hlen, hcols⟩ := h
  refine ⟨by rw [setPlane, mapWithIdx_length, hlen], ?_⟩
  intro x hx
  have hx' : x < m.length := by omega
  rw [setPlane, mapWithIdx_getD_lt _ _ [] _ _ hx' 0]
  simp only [Nat.zero_add]
  obtain ⟨hrow, hz⟩ := hcols x hx
  refine ⟨by rw [mapWithIdx_length, hrow], ?_⟩
  intro y hy
  have hy' : y < (m.getD x []).length := by omega
  rw [mapWithIdx_getD_lt _ _ [] _ _ hy' 0]
  simp only [Nat.zero_add, List.length_set]
  exact hz y hy

theorem series_mask_loop_shape (seq : ContourSequence) (tm : Mat4)
    (shape : ℕ × ℕ) : ∀ (sl : List SliceData) (i : ℕ) (mask res : Mask3)
    (a b c : ℕ), series_mask_loop seq tm shape i sl mask = .ok res →
    maskShapeP mask a b c → maskShapeP res a b c := by
  intro sl
  induction sl with
  | nil =>
    intro i mask res a b c hok hsh
    rw [series_mask_loop] at hok
    simp only [Except.ok.injEq] at hok
    exact hok ▸ hsh
  | cons s rest ih =>
    intro i mask res a b c hok hsh
    rw [series_mask_loop] at hok
    by_cases hnz : (get_slice_contour_data s seq).length ≠ 0
    · rw [if_pos hnz] at hok
      rcases hsm : get_slice_mask_from_slice_contour_data s
          (get_slice_contour_data s seq) tm shape with e | sm
      · rw [hsm] at hok
        exact absurd hok (by simp)
      · rw [hsm] at hok
        exact ih _ _ _ a b c hok (setPlane_shape _ _ _ _ _ _ hsh)
    · rw [if_neg hnz] at hok
      exact ih _ _ _ a b c hok hsh

theorem series_mask_loop_untouched (seq : ContourSequence) (tm : Mat4)
    (shape : ℕ × ℕ) : ∀ (sl : List SliceData) (i : ℕ) (mask res : Mask3)
    (j x y : ℕ), series_mask_loop seq tm shape i sl mask = .ok res →
    (∀ k, k < sl.length → i + k = j →
      (get_slice_contour_data (sl.getD k default) seq).length = 0) →
    cellValue3 res x y j = cellValue3 mask x y j := by
  intro sl
  induction sl with
  | nil =>
    intro i mask res j x y hok _
    rw [series_mask_loop] at hok
    simp only [Except.ok.injEq] at hok
    rw [hok]
  | cons s rest ih =>
    intro i mask res j x y hok hnomatch
    rw [series_mask_loop] at hok
    by_cases hnz : (get_slice_contour_data s seq).length ≠ 0
    · rw [if_pos hnz] at hok
      rcases hsm : get_slice_mask_from_slice_contour_data s
          (get_slice_contour_data s seq) tm shape with e | sm
      · rw [hsm] at hok
        exact absurd hok (by simp)
      · rw [hsm] at hok
        have hij : i ≠ j := by
          intro heq
          exact hnz (hnomatch 0 (by simp) (by omega))
        have := ih (i + 1) (setPlane mask sm i) res j x y hok
          (fun k hk hkj => hnomatch (k + 1) (by simpa using hk) (by omega))
        rw [this, cellValue3_setPlane_ne _ _ _ _ _ _ hij]
    · rw [if_neg hnz] at hok
      exact ih (i + 1) mask res j x y hok
        (fun k hk hkj => hnomatch (k + 1) (by simpa using hk) (by omega))

theorem no_match_contour_data (s : SliceData) (seq : ContourSequence)
    (h : ∀ contour ∈ seq, ∀ ci ∈ contour.contourImageSequence,
      ci.referencedSOPInstanceUID ≠ s.sopInstanceUID) :
    get_slice_contour_data s seq = [] := by
  induction seq with
  | nil => rfl
  | cons contour rest ih =>
    unfold get_slice_contour_data
    simp only [List.foldr_cons]
    have hinner : ∀ (l : List ContourImage),
        (∀ ci ∈ l, ci.referencedSOPInstanceUID ≠ s.sopInstanceUID) →
        l.foldr (fun contour_image acc2 =>
          if contour_image.referencedSOPInstanceUID = s.sopInstanceUID
          then contour.contourData :: acc2 else acc2) [] = [] := by
      intro l hl
      induction l with
      | nil => rfl
      | cons ci rest2 ih2 =>
        simp only [List.foldr_cons]
        rw [if_neg (hl ci (by simp)), ih2 (fun d hd => hl d (by simp [hd]))]
    rw [hinner contour.contourImageSequence
      (h contour (by simp)), List.nil_append]
    have := ih (fun d hd => h d (by simp [hd]))
    unfold get_slice_contour_data at this
    exact this

theorem cellValue3_empty (a b c x y z : ℕ) :
    cellValue3 (List.replicate a (List.replicate b (List.replicate c false)))
      x y z = false := by
  unfold cellValue3
  rw [getD_replicate]
  by_cases hx : x < a
  · rw [if_pos hx, getD_replicate]
    by_cases hy : y < b
    · rw [if_pos hy, getD_replicate]
      by_cases hz : z < c
      · rw [if_pos hz]
      · rw [if_neg hz]
    · rw [if_neg hy]
      simp
  · rw [if_neg hx]
    simp


/-- C8: `create_series_mask_from_contour_sequence` allocates a zero-filled
boolean mask shaped `(Columns, Rows, slice count)`, and every slice index
whose slice is referenced by no contour keeps an all-background plane. -/
theorem C8_series_mask_allocation (first : SliceData) (rest : List SliceData)
    (seq : ContourSequence) (result : Mask3)
    (hok : create_series_mask_from_contour_sequence (first :: rest) seq =
      .ok result) :
    maskShapeP result first.columns first.rows (first :: rest).length ∧
    (∀ j x y, (∀ contour ∈ seq, ∀ ci ∈ contour.contourImageSequence,
        ci.referencedSOPInstanceUID ≠
          ((first :: rest).getD j default).sopInstanceUID) →
      cellValue3 result x y j = false) := by
  unfold create_series_mask_from_contour_sequence at hok
  simp only [create_empty_series_mask] at hok
  rcases htm : get_patient_to_pixel_transformation_matrix (first :: rest)
    with e | tm
  · rw [htm] at hok
    simp at hok
  · rw [htm] at hok
    simp only [] at hok
    have hempty_shape : maskShapeP
        (List.replicate first.columns (List.replicate first.rows
          (List.replicate (first :: rest).length false)))
        first.columns first.rows (first :: rest).length := by
      refine ⟨by simp, ?_⟩
      intro x hx
      rw [getD_replicate, if_pos hx]
      refine ⟨by simp, ?_⟩
      intro y hy
      rw [getD_replicate, if_pos hy]
      simp
    constructor
    · exact series_mask_loop_shape _ _ _ _ _ _ _ _ _ _ hok hempty_shape
    · intro j x y hno
      have huntouched := series_mask_loop_untouched _ _ _ _ _ _ _ j x y hok ?_
      · rw [huntouched, cellValue3_empty]
      · intro k hk hkj
        have : (first :: rest).getD k default =
            (first :: rest).getD j default := by rw [show k = j by omega]
        rw [this, no_match_contour_data _ _ hno]
        rfl

/-- C8 witness: a one-slice series with an empty contour sequence; the
allocated 8×8×1 mask keeps its shape and stays all background. -/
theorem C8_series_mask_allocation_witness :
    maskShapeP (List.replicate 8 (List.replicate 8 (List.replicate 1 false)))
      c1Slice.columns c1Slice.rows [c1Slice].length ∧
    (∀ j x y, (∀ contour ∈ ([] : ContourSequence),
        ∀ ci ∈ contour.contourImageSequence,
        ci.referencedSOPInstanceUID ≠
          ([c1Slice].getD j default).sopInstanceUID) →
      cellValue3 (List.replicate 8 (List.replicate 8 (List.replicate 1 false)))
        x y j = false) :=
  C8_series_mask_allocation c1Slice [] [] _ (by
    have hempty : create_empty_series_mask [c1Slice] =
        .ok (List.replicate 8 (List.replicate 8 (List.replicate 1 false))) := by
      simp [create_empty_series_mask, c1Slice]
    simp only [create_series_mask_from_contour_sequence, hempty, c1_tm,
      series_mask_loop, get_slice_contour_data]
    simp)

/-! ### C9: the `approximate_contours` flag -/

/-- C9: both `find_mask_contours` and `create_pin_hole_mask` accept the
`approximate_contours` flag and ignore it: the result is identical for
any two flag values. -/
theorem C9_approximate_contours_flag_no_effect (m : Mask2) (f1 f2 : Bool) :
    find_mask_contours m f1 = find_mask_contours m f2 ∧
    create_pin_hole_mask m f1 = create_pin_hole_mask m f2 :=
  ⟨rfl, rfl⟩

/-! ### C6 and C10: the contours orchestrator -/

theorem maskSum_eq_zero_iff (m : Mask2) :
    maskSum m = 0 ↔ ∀ r c, cellValue m r c = false := by
  induction m with
  | nil =>
    simp only [maskSum, List.foldr_nil, cellValue]
    simp
  | cons row rest ih =>
    simp only [maskSum, List.foldr_cons]
    constructor
    · intro h r c
      have h1 : row.countP (fun b => b) = 0 := by omega
      have h2 : ∀ r c, cellValue rest r c = false := by
        apply ih.mp
        unfold maskSum
        omega
      cases r with
      | zero =>
        unfold cellValue
        simp only [List.getD_cons_zero]
        by_cases hc : c < row.length
        · rw [List.getD_eq_getElem row false hc]
          have := List.countP_eq_zero.mp h1 row[c] (List.getElem_mem hc)
          simpa using this
        · exact List.getD_eq_default _ _ (by omega)
      | succ rk =>
        have := h2 rk c
        unfold cellValue at this ⊢
        simpa [List.getD_cons_succ] using this
    · intro h
      have h1 : row.countP (fun b => b) = 0 := by
        apply List.countP_eq_zero.mpr
        intro b hb
        obtain ⟨c, hc, hbc⟩ := List.getElem_of_mem hb
        have := h 0 c
        unfold cellValue at this
        simp only [List.getD_cons_zero] at this
        rw [List.getD_eq_getElem row false hc, hbc] at this
        simp [this]
      have h2 : maskSum rest = 0 := by
        apply ih.mpr
        intro r c
        have := h (r + 1) c
        unfold cellValue at this ⊢
        simpa [List.getD_cons_succ] using this
      unfold maskSum at h2
      omega

theorem cellSegments_allFalse (m : Mask2) (r0 c0 : ℕ)
    (h : ∀ r c, cellValue m r c = false) : cellSegments m r0 c0 = [] := by
  unfold cellSegments
  rw [h r0 c0, h r0 (c0 + 1), h (r0 + 1) c0, h (r0 + 1) (c0 + 1)]
  rfl

theorem find_mask_contours_allFalse (m : Mask2) (flag : Bool)
    (h : ∀ r c, cellValue m r c = false) : find_mask_contours m flag = [] := by
  unfold find_mask_contours find_contours
  have hseg : get_contour_segments m = [] := by
    unfold get_contour_segments
    have hinner : ∀ (L2 : List ℕ) (r0 : ℕ) (acc : List (DPoint × DPoint)),
        L2.foldr (fun c0 acc2 => cellSegments m r0 c0 ++ acc2) acc = acc := by
      intro L2 r0
      induction L2 with
      | nil => intro acc; rfl
      | cons c0 cs ih2 =>
        intro acc
        simp only [List.foldr_cons, ih2 acc, cellSegments_allFalse m r0 c0 h,
          List.nil_append]
    have houter : ∀ (L1 : List ℕ),
        L1.foldr (fun r0 acc =>
          (List.range ((m.getD 0 []).length - 1)).foldr
            (fun c0 acc2 => cellSegments m r0 c0 ++ acc2) acc) [] = [] := by
      intro L1
      induction L1 with
      | nil => rfl
      | cons r0 rs ih1 =>
        rw [List.foldr_cons, hinner]
        exact ih1
    exact houter _
  rw [hseg]
  rfl

theorem contours_loop_store (roi : ROIData) (tm : Mat4) :
    ∀ (sl : List SliceData) (i : ℕ) (res : Except PyError (List (List (List ℚ))))
    (st : Mask3), get_contours_coords_loop roi tm i sl = some (res, st) →
    st = roi.mask := by
  intro sl
  induction sl with
  | nil =>
    intro i res st h
    rw [get_contours_coords_loop] at h
    simp only [Option.some.injEq, Prod.mk.injEq] at h
    exact h.2.symm
  | cons s rest ih =>
    intro i res st h
    rw [get_contours_coords_loop] at h
    by_cases hz : zdim roi.mask ≤ i
    · rw [if_pos hz] at h
      simp only [Option.some.injEq, Prod.mk.injEq] at h
      exact h.2.symm
    · rw [if_neg hz] at h
      by_cases hms : maskSum (planeAt roi.mask i) = 0
      · rw [if_pos hms] at h
        generalize hrec : get_contours_coords_loop roi tm (i + 1) rest = r at h
        split at h
        next out st2 =>
          simp only [Option.some.injEq, Prod.mk.injEq] at h
          exact h.2.symm ▸ ih (i + 1) _ _ hrec
        next other hne =>
          subst h
          exact ih (i + 1) _ _ hrec
      · rw [if_neg hms] at h
        generalize hps : processSlice roi tm i = pr at h
        split at h
        next => simp at h
        next e =>
          simp only [Option.some.injEq, Prod.mk.injEq] at h
          exact h.2.symm
        next formatted =>
          generalize hrec : get_contours_coords_loop roi tm (i + 1) rest = r at h
          split at h
          next out st2 =>
            simp only [Option.some.injEq, Prod.mk.injEq] at h
            exact h.2.symm ▸ ih (i + 1) _ _ hrec
          next other hne =>
            subst h
            exact ih (i + 1) _ _ hrec

theorem contours_loop_ok (roi : ROIData) (tm : Mat4) :
    ∀ (sl : List SliceData) (i : ℕ) (out : List (List (List ℚ))) (st : Mask3),
    get_contours_coords_loop roi tm i sl = some (.ok out, st) →
    out.length = sl.length ∧
    ∀ k, k < sl.length → maskSum (planeAt roi.mask (i + k)) = 0 →
      out.getD k [] = [] := by
  intro sl
  induction sl with
  | nil =>
    intro i out st h
    rw [get_contours_coords_loop] at h
    simp only [Option.some.injEq, Prod.mk.injEq, Except.ok.injEq] at h
    refine ⟨by rw [← h.1]; rfl, ?_⟩
    intro k hk
    simp at hk
  | cons s rest ih =>
    intro i out st h
    rw [get_contours_coords_loop] at h
    by_cases hz : zdim roi.mask ≤ i
    · rw [if_pos hz] at h
      simp at h
    · rw [if_neg hz] at h
      by_cases hms : maskSum (planeAt roi.mask i) = 0
      · rw [if_pos hms] at h
        generalize hrec : get_contours_coords_loop roi tm (i + 1) rest = r at h
        split at h
        next out2 st2 =>
          simp only [Option.some.injEq, Prod.mk.injEq, Except.ok.injEq] at h
          obtain ⟨h1, _⟩ := h
          obtain ⟨ihlen, ihk⟩ := ih (i + 1) out2 st2 hrec
          refine ⟨by rw [← h1]; simpa using ihlen, ?_⟩
          intro k hk hmk
          cases k with
          | zero => rw [← h1]; rfl
          | succ k2 =>
            rw [← h1]
            simp only [List.getD_cons_succ]
            exact ihk k2 (by simpa using hk)
              (by rw [show i + 1 + k2 = i + (k2 + 1) by omega]; exact hmk)
        next other hne =>
          subst h
          exact absurd rfl (hne out st)
      · rw [if_neg hms] at h
        generalize hps : processSlice roi tm i = pr at h
        split at h
        next => simp at h
        next e => simp at h
        next formatted =>
          generalize hrec : get_contours_coords_loop roi tm (i + 1) rest = r at h
          split at h
          next out2 st2 =>
            simp only [Option.some.injEq, Prod.mk.injEq, Except.ok.injEq] at h
            obtain ⟨h1, _⟩ := h
            obtain ⟨ihlen, ihk⟩ := ih (i + 1) out2 st2 hrec
            refine ⟨by rw [← h1]; simpa using ihlen, ?_⟩
            intro k hk hmk
            cases k with
            | zero =>
              exfalso
              rw [Nat.add_zero] at hmk
              exact hms hmk
            | succ k2 =>
              rw [← h1]
              simp only [List.getD_cons_succ]
              exact ihk k2 (by simpa using hk)
                (by rw [show i + 1 + k2 = i + (k2 + 1) by omega]; exact hmk)
          next other hne =>
            subst h
            exact absurd rfl (hne out st)

theorem processSlice_empty_trace (roi : ROIData) (tm : Mat4) (i : ℕ)
    (hpin : roi.use_pin_hole = false)
    (htr : find_mask_contours (planeAt roi.mask i) roi.approximate_contours = []) :
    processSlice roi tm i = some (.error .emptyContour) := by
  unfold processSlice
  rw [hpin]
  simp only [Bool.false_eq_true, if_false]
  show some (traceAndFormat roi tm i (planeAt roi.mask i)) = _
  unfold traceAndFormat
  rw [htr]
  rfl

theorem contours_loop_err (roi : ROIData) (tm : Mat4)
    (hpin : roi.use_pin_hole = false) :
    ∀ (sl : List SliceData) (i : ℕ),
    i + sl.length ≤ zdim roi.mask →
    (∃ k, k < sl.length ∧ maskSum (planeAt roi.mask (i + k)) ≠ 0 ∧
      find_mask_contours (planeAt roi.mask (i + k)) roi.approximate_contours = []) →
    get_contours_coords_loop roi tm i sl =
      some (.error .emptyContour, roi.mask) := by
  intro sl
  induction sl with
  | nil =>
    intro i _ hex
    obtain ⟨k, hk, _⟩ := hex
    simp at hk
  | cons s rest ih =>
    intro i hbound hex
    obtain ⟨k, hk, hnz, htr⟩ := hex
    rw [get_contours_coords_loop]
    rw [if_neg (by simp only [List.length_cons] at hbound; omega)]
    by_cases hms : maskSum (planeAt roi.mask i) = 0
    · rw [if_pos hms]
      have hk0 : k ≠ 0 := by
        intro h0
        rw [h0, Nat.add_zero] at hnz
        exact hnz hms
      obtain ⟨k2, rfl⟩ : ∃ k2, k = k2 + 1 := ⟨k - 1, by omega⟩
      have hrec := ih (i + 1)
        (by simp only [List.length_cons] at hbound; omega)
        ⟨k2, by simpa using hk,
          by rw [show i + 1 + k2 = i + (k2 + 1) by omega]; exact hnz,
          by rw [show i + 1 + k2 = i + (k2 + 1) by omega]; exact htr⟩
      rw [hrec]
    · rw [if_neg hms]
      have hred : processSlice roi tm i =
          some (traceAndFormat roi tm i (planeAt roi.mask i)) := by
        unfold processSlice
        rw [hpin]
        rfl
      by_cases htri : (swapContours (find_mask_contours (planeAt roi.mask i)
          roi.approximate_contours)).length = 0
      · have htaf : traceAndFormat roi tm i (planeAt roi.mask i) =
            .error .emptyContour := by
          unfold traceAndFormat
          rw [if_pos htri]
        rw [hred, htaf]
      · have hk0 : k ≠ 0 := by
          intro h0
          rw [h0, Nat.add_zero] at htr
          rw [htr] at htri
          exact htri rfl
        obtain ⟨k2, rfl⟩ : ∃ k2, k = k2 + 1 := ⟨k - 1, by omega⟩
        have hrec := ih (i + 1)
          (by simp only [List.length_cons] at hbound; omega)
          ⟨k2, by simpa using hk,
            by rw [show i + 1 + k2 = i + (k2 + 1) by omega]; exact hnz,
            by rw [show i + 1 + k2 = i + (k2 + 1) by omega]; exact htr⟩
        have htaf : traceAndFormat roi tm i (planeAt roi.mask i) =
            .ok (formatContours tm i (swapContours (find_mask_contours
              (planeAt roi.mask i) roi.approximate_contours))) := by
          unfold traceAndFormat
          rw [if_neg htri]
        rw [hred, htaf, hrec]

theorem contours_loop_all_blank (roi : ROIData) (tm : Mat4) :
    ∀ (sl : List SliceData) (i : ℕ),
    i + sl.length ≤ zdim roi.mask →
    (∀ k, k < sl.length → maskSum (planeAt roi.mask (i + k)) = 0) →
    get_contours_coords_loop roi tm i sl =
      some (.ok (List.replicate sl.length []), roi.mask) := by
  intro sl
  induction sl with
  | nil =>
    intro i _ _
    rw [get_contours_coords_loop]
    rfl
  | cons s rest ih =>
    intro i hbound hall
    rw [get_contours_coords_loop]
    rw [if_neg (by simp only [List.length_cons] at hbound; omega)]
    rw [if_pos (by have := hall 0 (by simp); rwa [Nat.add_zero] at this)]
    have hrec := ih (i + 1)
      (by simp only [List.length_cons] at hbound; omega)
      (fun k hk => by
        rw [show i + 1 + k = i + (k + 1) by omega]
        exact hall (k + 1) (by simpa using hk))
    rw [hrec]
    rfl

theorem c1_tm_fwd : get_pixel_to_patient_transformation_matrix [c1Slice] =
    .ok (Mat4.mk ⟨1, 0, 0⟩ ⟨0, 1, 0⟩ ⟨0, 0, 1⟩ ⟨0, 0, 0⟩) := by
  have hsp : get_spacing_between_slices [c1Slice] = .ok 1 := by
    unfold get_spacing_between_slices
    rw [if_neg (by simp)]
  simp only [get_pixel_to_patient_transformation_matrix, hsp, c1_dirs]
  norm_num [vsmul, c1Slice, Mat4.mk.injEq, Vec3.mk.injEq]

/-- C6: blank slices are skipped without error (their output entry is the
empty list), the tracer itself returns an empty contour list on an
all-background mask without raising, a plane is all background exactly
when its `np.sum` is zero (the code's blank test), a non-blank slice
whose trace is empty makes the call raise the empty-contour error of
`validate_contours`, and a series of only blank slices returns one empty
contour list per slice with no error at all. -/
theorem C6_empty_slices_and_validation (roi : ROIData) (series : List SliceData) :
    (∀ out st, get_contours_coords roi series = some (.ok out, st) →
      out.length = series.length ∧
      ∀ k, k < series.length → maskSum (planeAt roi.mask k) = 0 →
        out.getD k [] = []) ∧
    (∀ (m : Mask2) (flag : Bool), (∀ r c, cellValue m r c = false) →
      find_mask_contours m flag = []) ∧
    (∀ m : Mask2, maskSum m = 0 ↔ ∀ r c, cellValue m r c = false) ∧
    (∀ tm, get_pixel_to_patient_transformation_matrix series = .ok tm →
      roi.use_pin_hole = false → series.length ≤ zdim roi.mask →
      (∃ k, k < series.length ∧ maskSum (planeAt roi.mask k) ≠ 0 ∧
        find_mask_contours (planeAt roi.mask k) roi.approximate_contours = []) →
      get_contours_coords roi series = some (.error .emptyContour, roi.mask)) ∧
    (∀ tm, get_pixel_to_patient_transformation_matrix series = .ok tm →
      series.length ≤ zdim roi.mask →
      (∀ k, k < series.length → maskSum (planeAt roi.mask k) = 0) →
      get_contours_coords roi series =
        some (.ok (List.replicate series.length []), roi.mask)) := by
  refine ⟨?_, fun m flag h => find_mask_contours_allFalse m flag h,
    fun m => maskSum_eq_zero_iff m, ?_, ?_⟩
  · intro out st h
    unfold get_contours_coords at h
    rcases htm : get_pixel_to_patient_transformation_matrix series with e | tm
    · rw [htm] at h
      simp at h
    · rw [htm] at h
      obtain ⟨hlen, hk⟩ := contours_loop_ok roi tm series 0 out st h
      exact ⟨hlen, fun k hkl hms => hk k hkl (by rwa [Nat.zero_add])⟩
  · intro tm htm hpin hlen hex
    unfold get_contours_coords
    rw [htm]
    apply contours_loop_err roi tm hpin series 0 (by omega)
    obtain ⟨k, h1, h2, h3⟩ := hex
    exact ⟨k, h1, by rwa [Nat.zero_add], by rwa [Nat.zero_add]⟩
  · intro tm htm hlen hall
    unfold get_contours_coords
    rw [htm]
    apply contours_loop_all_blank roi tm series 0 (by omega)
    intro k hkl
    rw [Nat.zero_add]
    exact hall k hkl

/-- C6 witness: a 2×2×1 all-background mask over the one-slice identity
series gives one empty contour list and no error. -/
theorem C6_empty_slices_witness :
    get_contours_coords
      (ROIData.mk (List.replicate 2 (List.replicate 2 (List.replicate 1 false)))
        false false) [c1Slice] =
      some (.ok (List.replicate 1 []),
        List.replicate 2 (List.replicate 2 (List.replicate 1 false))) :=
  (C6_empty_slices_and_validation
    (ROIData.mk (List.replicate 2 (List.replicate 2 (List.replicate 1 false)))
      false false) [c1Slice]).2.2.2.2
    (Mat4.mk ⟨1, 0, 0⟩ ⟨0, 1, 0⟩ ⟨0, 0, 1⟩ ⟨0, 0, 0⟩) c1_tm_fwd
    (by decide)
    (fun k hk => by
      have hk0 : k = 0 := by simp at hk; omega
      subst hk0
      decide)

/-- C10: `get_contours_coords` never mutates the caller's ROI mask: on
every finishing run (normal or raising) the caller's 3D mask buffer
holds its original values, because every write of the pin-hole pass goes
to arrays freshly allocated by `mask.copy()` / `astype` and no statement
assigns through the `roi_data.mask` views. -/
theorem C10_roi_mask_unchanged (roi : ROIData) (series : List SliceData)
    (res : Except PyError (List (List (List ℚ)))) (st : Mask3)
    (h : get_contours_coords roi series = some (res, st)) : st = roi.mask := by
  unfold get_contours_coords at h
  rcases htm : get_pixel_to_patient_transformation_matrix series with e | tm
  · rw [htm] at h
    simp only [Option.some.injEq, Prod.mk.injEq] at h
    exact h.2.symm
  · rw [htm] at h
    exact contours_loop_store roi tm series 0 res st h

/-- C10 witness: the run of the C6 witness returns the caller's mask
unchanged. -/
theorem C10_roi_mask_unchanged_witness :
    (List.replicate 2 (List.replicate 2 (List.replicate 1 false)) : Mask3) =
      (ROIData.mk (List.replicate 2 (List.replicate 2 (List.replicate 1 false)))
        false false).mask :=
  C10_roi_mask_unchanged
    (ROIData.mk (List.replicate 2 (List.replicate 2 (List.replicate 1 false)))
      false false) [c1Slice] (.ok (List.replicate 1 []))
    (List.replicate 2 (List.replicate 2 (List.replicate 1 false)))
    (by
      unfold get_contours_coords
      rw [c1_tm_fwd]
      exact contours_loop_all_blank _ _ [c1Slice] 0 (by decide)
        (fun k hk => by
          have hk0 : k = 0 := by simp at hk; omega
          subst hk0
          decide))

end RTUtils
